import Mathlib

/-!
Verification development for the Travel-Buddy emergency train scraper.

The Python sources embedded here are `emergency_scraper.py` (record
extraction and the time-aware selection engine) and
`tempCodeRunnerFile.py` (an older variant whose selection is plain
"next 3 trains").

Modelling conventions:
* Instants are natural numbers of seconds on a timeline whose origin is
  midnight of some reference day, so the calendar date of an instant `t`
  is `t / 86400` and its clock time is `t % 86400`.  Python datetime
  carries microseconds; only the sub-minute residue of "now" is
  observable in this code (it is zeroed by `replace(second=0,
  microsecond=0)`), and seconds resolution captures that faithfully.
* Python dict records become the structure `Train`; the in-place
  mutation that attaches `departure_datetime` becomes a record update of
  the initially-`none` field `departure_datetime`.  The companion
  `departure_datetime_str` field is a `strftime` rendering of the same
  value (or the literal "Unknown" in the sentinel case); no claim
  inspects it and it is not modelled separately.
* Python `sorted` with a key function is specified to be a stable
  ascending sort, and the stable ascending permutation of a list is
  unique; it is embedded as `List.insertionSort` on the key order,
  which Mathlib proves sorted, permuting, and stable.
* `str.lower` is embedded as a character-wise `Char.toLower` map, which
  agrees with Python on the ASCII range (all classification keywords are
  ASCII).
-/

/-- Normalized train record produced by `get_train_info` in
`emergency_scraper.py` (field order follows the dict literal in the
source).  `departure_datetime` is the derived field attached later by
the selection engine; it is `none` as extracted. -/
structure Train where
  train_number : String
  train_name : String
  train_type : String
  source : String
  departure_time : String
  destination : String
  arrival_time : String
  duration : String
  booking_available : Bool
  advance_reservation_period : String
  start_date : String
  end_date : String
  booking_classes : List String
  notices : List String
  has_pantry : Bool
  is_limited_run : Bool
  departure_datetime : Option Nat := none
deriving DecidableEq

def secPerMinute : Nat := 60

def secPerHour : Nat := 3600

def secPerDay : Nat := 86400

/-- Character-wise lower casing, the embedding of Python `str.lower()`
(ASCII-faithful; every classification keyword is ASCII). -/
def pyLower (s : String) : String :=
  String.mk (s.data.map Char.toLower)

/-- Substring test on character lists: the embedding of the Python
`in` operator on strings (an empty needle is contained in anything). -/
def containsSub (n : List Char) : List Char → Bool
  | [] => n.isEmpty
  | c :: t => n.isPrefixOf (c :: t) || containsSub n t

/-- Embedding of the Python membership test of one string inside
another, as used for keyword matching. -/
def strIn (needle hay : String) : Bool :=
  containsSub needle.data hay.data

/-- Keyword set for long-distance service, from `has_non_local_trains`
(the same literal list reappears inside the non-local branch of
`get_trains_by_logic`). -/
def non_local_keywords : List String :=
  ["express", "rajdhani", "shatabdi", "duronto", "garib rath",
   "superfast", "super fast", "fast", "mail", "special"]

/-- Keyword set for suburban service, from `has_local_trains`. -/
def local_keywords : List String :=
  ["local", "suburban", "passenger", "memu", "dmu", "emu"]

/-- One train matches a keyword set when its lower-cased name or type
contains some keyword, as in the inner loops of `has_non_local_trains`
and `has_local_trains`. -/
def matchesKeywords (kws : List String) (t : Train) : Bool :=
  kws.any fun k =>
    strIn k (pyLower t.train_name) || strIn k (pyLower t.train_type)

/-- Function `has_non_local_trains` from `emergency_scraper.py`. -/
def has_non_local_trains (trains : List Train) : Bool :=
  trains.any (matchesKeywords non_local_keywords)

/-- Function `has_local_trains` from `emergency_scraper.py`. -/
def has_local_trains (trains : List Train) : Bool :=
  trains.any (matchesKeywords local_keywords)

/-- The per-train test of the non-local branch of `get_trains_by_logic`
(lines 152-157 of the source, same keyword list as
`has_non_local_trains`). -/
def isNonLocalTrain (t : Train) : Bool :=
  matchesKeywords non_local_keywords t

/-- Strip leading and trailing whitespace, as Python `int()` does to its
argument before parsing. -/
def trimWs (cs : List Char) : List Char :=
  ((cs.dropWhile Char.isWhitespace).reverse.dropWhile Char.isWhitespace).reverse

/-- Decimal value of a digit list. -/
def digitsToNat (cs : List Char) : Nat :=
  cs.foldl (fun acc c => acc * 10 + (c.toNat - 48)) 0

/-- A nonempty all-digit list parses to its decimal value. -/
def parseDigits (cs : List Char) : Option Nat :=
  if cs ≠ [] ∧ cs.all Char.isDigit then some (digitsToNat cs) else none

/-- Embedding of Python `int(s)`: optional surrounding whitespace, an
optional sign, then decimal digits; anything else raises `ValueError`,
modelled as `none`. -/
def parsePyInt (cs : List Char) : Option Int :=
  match trimWs cs with
  | '+' :: rest => (parseDigits rest).map Int.ofNat
  | '-' :: rest => (parseDigits rest).map fun n => -(n : Int)
  | rest => (parseDigits rest).map Int.ofNat

/-- Embedding of Python `s.split(':')`: split a character list at every
colon, keeping empty pieces (so the empty string yields one empty
piece, exactly as in Python). -/
def splitOnColon : List Char → List (List Char)
  | [] => [[]]
  | c :: rest =>
    let r := splitOnColon rest
    if c = ':' then [] :: r
    else
      match r with
      | [] => [[c]]
      | h :: t => (c :: h) :: t

/-- The departure-time parse performed by `get_trains_by_logic` lines
118-119: `departure_hour, departure_minute = map(int,
departure_time_str.split(':'))` followed by `current_time.replace(...)`.
`none` collects every `ValueError`: a split arity other than 2, a field
`int()` rejects, or an hour/minute out of the range `replace` accepts. -/
def parseDeparture (s : String) : Option (Nat × Nat) :=
  match splitOnColon s.data with
  | [hs, ms] =>
    match parsePyInt hs, parsePyInt ms with
    | some h, some m =>
      if 0 ≤ h ∧ h < 24 ∧ 0 ≤ m ∧ m < 60 then some (h.toNat, m.toNat)
      else none
    | _, _ => none
  | _ => none

/-- The temporal-normalization loop body of `get_trains_by_logic`
(lines 114-133): attach `departure_datetime`.  An empty
`departure_time` or any parse failure yields the far-future sentinel
`now + 365 days`; otherwise the clock time is placed on the date of
`now` (seconds zeroed) and rolled forward one day when that instant is
already past. -/
def addDepartureDt (now : Nat) (t : Train) : Train :=
  if t.departure_time = "" then
    { t with departure_datetime := some (now + 365 * secPerDay) }
  else
    match parseDeparture t.departure_time with
    | some (h, m) =>
      let d0 := now / secPerDay * secPerDay + h * secPerHour + m * secPerMinute
      let dt := if d0 < now then d0 + secPerDay else d0
      { t with departure_datetime := some dt }
    | none => { t with departure_datetime := some (now + 365 * secPerDay) }

/-- Sort key: the departure_datetime value, as passed to the key
function of the global sort.  After annotation the field is always
present; `getD` stands for the dict lookup. -/
def dtKey (t : Train) : Nat :=
  t.departure_datetime.getD 0

/-- Comparison of sort keys induced by the departure_datetime key
function. -/
def leDt (a b : Train) : Prop :=
  dtKey a ≤ dtKey b

instance : DecidableRel leDt :=
  fun a b => Nat.decLe (dtKey a) (dtKey b)

instance : IsTotal Train leDt :=
  ⟨fun a b => Nat.le_total (dtKey a) (dtKey b)⟩

instance : IsTrans Train leDt :=
  ⟨fun _ _ _ => Nat.le_trans⟩

/-- Embedding of the global sort on line 136 of the source: Python
sorted with the departure_datetime key is the stable ascending sort by
that key, embedded as the stable `List.insertionSort` on `leDt`. -/
def sortByDt (trains : List Train) : List Train :=
  trains.insertionSort leDt

/-- The collection loop of the non-local branch (lines 150-162): append
each matching train and break once three are collected. -/
def nonLocalScan (acc : List Train) : List Train → List Train
  | [] => acc
  | t :: rest =>
    if isNonLocalTrain t then
      let acc2 := acc ++ [t]
      if 3 ≤ acc2.length then acc2 else nonLocalScan acc2 rest
    else nonLocalScan acc rest

/-- Function `get_trains_by_logic` from `emergency_scraper.py`: annotate,
stable-sort, classify the set, then select by the four-branch policy.
Returns the selected records and the policy tag. -/
def get_trains_by_logic (now : Nat) (trains : List Train) : List Train × String :=
  let annotated := trains.map (addDepartureDt now)
  let sorted_trains := sortByDt annotated
  let has_non_local := has_non_local_trains sorted_trains
  let has_local := has_local_trains sorted_trains
  if has_non_local && has_local then
    (sorted_trains.take 3, "mixed")
  else if has_non_local then
    (nonLocalScan [] sorted_trains, "non_local")
  else if has_local then
    let end_time := now + secPerHour
    let filtered := sorted_trains.filter fun t => decide (dtKey t ≤ end_time)
    if filtered.length = 0 then
      (sorted_trains.take 3, "local_fallback")
    else
      (filtered, "local")
  else
    (sorted_trains.take 3, "other")

/-- Scan for the first closing angle bracket, returning the remainder
after it. -/
def scanClose : List Char → Option (List Char)
  | [] => none
  | c :: r => if c = '>' then some r else scanClose r

/-- Given the characters after an opening angle bracket, decide whether
the regex `<[^>]+>` matches here: at least one character before the
first closing bracket.  Returns the remainder after the match. -/
def splitTag : List Char → Option (List Char)
  | [] => none
  | c :: r => if c = '>' then none else scanClose r

theorem scanClose_length : ∀ {l r : List Char}, scanClose l = some r → r.length < l.length := by
  intro l
  induction l with
  | nil => intro r h; simp [scanClose] at h
  | cons c t ih =>
    intro r h
    by_cases hc : c = '>'
    · simp [scanClose, hc] at h
      simp [← h]
    · simp [scanClose, hc] at h
      exact Nat.lt_trans (ih h) (Nat.lt_succ_self _)

theorem splitTag_length {l r : List Char} (h : splitTag l = some r) : r.length < l.length := by
  match l with
  | [] => simp [splitTag] at h
  | c :: t =>
    by_cases hc : c = '>'
    · simp [splitTag, hc] at h
    · simp [splitTag, hc] at h
      exact Nat.lt_trans (scanClose_length h) (Nat.lt_succ_self _)

/-- Embedding of the tag-stripping regex substitution applied to each
notice: delete every leftmost-first occurrence of an angle-bracketed
run of at least one non-bracket character. -/
def stripTags (cs : List Char) : List Char :=
  match cs with
  | [] => []
  | '<' :: rest =>
    match h : splitTag rest with
    | some rest2 => stripTags rest2
    | none => '<' :: stripTags rest
  | c :: rest => c :: stripTags rest
termination_by cs.length
decreasing_by
  · have := splitTag_length h
    simp
    omega
  · simp
  · simp

/-- Embedding of the entity unescape applied to each notice:
left-to-right non-overlapping replacement of the six-character quote
entity by a literal quote character. -/
def replaceQuot : List Char → List Char
  | '&' :: 'q' :: 'u' :: 'o' :: 't' :: ';' :: rest => '"' :: replaceQuot rest
  | c :: rest => c :: replaceQuot rest
  | [] => []

/-- Notice clean-up from `get_train_info` lines 48-50: strip tags, then
unescape quotes. -/
def cleanNotice (s : String) : String :=
  String.mk (replaceQuot (stripTags s.data))

/-- Decoded content of the data-train JSON attribute: every field the
source reads from the blob with a get carrying an empty-string
default; `none` when the key is absent. -/
structure TrainBlob where
  num : Option String := none
  name : Option String := none
  typ : Option String := none
  s : Option String := none
  st : Option String := none
  d : Option String := none
  dt : Option String := none
  tt : Option String := none
deriving DecidableEq

/-- One qualifying table row: it carries the data-train attribute,
since `scrape_trains_between` selects exactly the rows having that
attribute.  A `dataTrain` of `none` models a blob the JSON decoder
rejects.  The remaining fields model what the sibling markup lookups of
`get_train_info` return: the row attributes read with a get, the
trimmed link texts collected by `get_booking_classes`, the raw tooltip
titles of the info icons, and the presence of the pantry and date
icons. -/
structure RawRow where
  dataTrain : Option TrainBlob := none
  book : Option String := none
  ar : Option String := none
  sd : Option String := none
  ed : Option String := none
  bookingClasses : List String := []
  noticeTitles : List String := []
  hasPantryIcon : Bool := false
  hasDateIcon : Bool := false
deriving DecidableEq

/-- Function `get_train_info` from `emergency_scraper.py`: decode the blob and
build the record; a decode failure is caught and reported as `None`. -/
def get_train_info (row : RawRow) : Option Train :=
  match row.dataTrain with
  | none => none
  | some train_data =>
    some {
      train_number := train_data.num.getD ""
      train_name := train_data.name.getD ""
      train_type := train_data.typ.getD ""
      source := train_data.s.getD ""
      departure_time := train_data.st.getD ""
      destination := train_data.d.getD ""
      arrival_time := train_data.dt.getD ""
      duration := train_data.tt.getD ""
      booking_available := row.book.getD "0" = "1"
      advance_reservation_period := row.ar.getD "0"
      start_date := row.sd.getD ""
      end_date := row.ed.getD ""
      booking_classes := row.bookingClasses
      notices := row.noticeTitles.map cleanNotice
      has_pantry := row.hasPantryIcon
      is_limited_run := row.hasDateIcon }

/-- The extraction loop of `scrape_trains_between` lines 227-231:
append `get_train_info(row)` whenever it is not `None`. -/
def extractTrains (rows : List RawRow) : List Train :=
  rows.filterMap get_train_info

/-- A fetched, parsed schedule document: the qualifying rows found by
the data-train row query, plus whether the upstream error/warning
banner is present in the markup.  The banner flag is part of the
document, but the scraper never reads it. -/
structure Document where
  trainRows : List RawRow
  hasErrorBanner : Bool
deriving DecidableEq

/-- The post-fetch portion of `scrape_trains_between` from
`emergency_scraper.py`: if no qualifying rows are found the function
returns `None`; otherwise it extracts records, runs the selection
engine, and returns the selected records.  (The per-record conversion
of `departure_datetime` to its string transport form before returning
is a representation change on the derived field only and is not
modelled separately.) -/
def scrape_trains_between (now : Nat) (doc : Document) : Option (List Train) :=
  if doc.trainRows.isEmpty then none
  else some (get_trains_by_logic now (extractTrains doc.trainRows)).1

namespace TempFile

/-- The temporal-normalization loop of `get_next_3_trains` in
`tempCodeRunnerFile.py` (lines 86-105), textually identical to the one
in `emergency_scraper.py`. -/
def addDepartureDt (now : Nat) (t : Train) : Train :=
  if t.departure_time = "" then
    { t with departure_datetime := some (now + 365 * secPerDay) }
  else
    match parseDeparture t.departure_time with
    | some (h, m) =>
      let d0 := now / secPerDay * secPerDay + h * secPerHour + m * secPerMinute
      let dt := if d0 < now then d0 + secPerDay else d0
      { t with departure_datetime := some dt }
    | none => { t with departure_datetime := some (now + 365 * secPerDay) }

/-- Function `get_next_3_trains` from `tempCodeRunnerFile.py`: annotate, stable
sort ascending by `departure_datetime`, return the first 3.  (The
datetime-to-string conversion applied to the first three records before
returning only changes the transport form of the derived field and is
not modelled separately.) -/
def get_next_3_trains (now : Nat) (trains : List Train) : List Train :=
  let annotated := trains.map (addDepartureDt now)
  let sorted_trains := annotated.insertionSort leDt
  sorted_trains.take 3

end TempFile

/-! ### Helper lemmas about the embedding -/

/-- The instant the annotation step attaches for a successfully parsed
clock time `hh:mm` (analysis shorthand for the value computed inside
`addDepartureDt`): the clock time on the date of "now", rolled forward
one day when already past. -/
def rolledDt (now hh mm : Nat) : Nat :=
  if now / secPerDay * secPerDay + hh * secPerHour + mm * secPerMinute < now
  then now / secPerDay * secPerDay + hh * secPerHour + mm * secPerMinute + secPerDay
  else now / secPerDay * secPerDay + hh * secPerHour + mm * secPerMinute

theorem parseDeparture_empty : parseDeparture "" = none := by decide

theorem parseDeparture_bounds {s : String} {hh mm : Nat}
    (h : parseDeparture s = some (hh, mm)) : hh < 24 ∧ mm < 60 := by
  unfold parseDeparture at h
  split at h
  · split at h
    · split at h
      · rename_i hrange
        simp only [Option.some.injEq, Prod.mk.injEq] at h
        obtain ⟨hr1, hr2, hr3, hr4⟩ := hrange
        omega
      · exact absurd h (by simp)
    · exact absurd h (by simp)
  · exact absurd h (by simp)

theorem addDepartureDt_of_none {t : Train} (now : Nat)
    (h : parseDeparture t.departure_time = none) :
    addDepartureDt now t = { t with departure_datetime := some (now + 365 * secPerDay) } := by
  unfold addDepartureDt
  by_cases he : t.departure_time = ""
  · simp [he]
  · simp [he, h]

theorem addDepartureDt_of_some {t : Train} {hh mm : Nat} (now : Nat)
    (h : parseDeparture t.departure_time = some (hh, mm)) :
    addDepartureDt now t = { t with departure_datetime := some (rolledDt now hh mm) } := by
  have he : t.departure_time ≠ "" := by
    intro he
    rw [he, parseDeparture_empty] at h
    exact absurd h (by simp)
  unfold addDepartureDt rolledDt
  simp [he, h]

/-- The annotation step only sets the derived field. -/
theorem addDepartureDt_shape (now : Nat) (t : Train) :
    ∃ v : Nat, addDepartureDt now t = { t with departure_datetime := some v } := by
  cases h : parseDeparture t.departure_time with
  | none => exact ⟨_, addDepartureDt_of_none now h⟩
  | some p =>
    obtain ⟨hh, mm⟩ := p
    exact ⟨_, addDepartureDt_of_some now h⟩

theorem dtKey_addDepartureDt_of_none {t : Train} (now : Nat)
    (h : parseDeparture t.departure_time = none) :
    dtKey (addDepartureDt now t) = now + 365 * secPerDay := by
  rw [addDepartureDt_of_none now h]
  rfl

theorem rolledDt_bounds {hh mm : Nat} (now : Nat) (h24 : hh < 24) (m60 : mm < 60) :
    now ≤ rolledDt now hh mm ∧ rolledDt now hh mm < now + secPerDay := by
  unfold rolledDt
  simp only [secPerDay, secPerHour, secPerMinute]
  split <;> omega

theorem dtKey_addDepartureDt_of_some {t : Train} {hh mm : Nat} (now : Nat)
    (h : parseDeparture t.departure_time = some (hh, mm)) :
    dtKey (addDepartureDt now t) = rolledDt now hh mm := by
  rw [addDepartureDt_of_some now h]
  rfl

/-- Every annotated record has its key at or after "now". -/
theorem now_le_dtKey_addDepartureDt (now : Nat) (t : Train) :
    now ≤ dtKey (addDepartureDt now t) := by
  cases h : parseDeparture t.departure_time with
  | none =>
    rw [dtKey_addDepartureDt_of_none now h]
    simp [secPerDay]
  | some p =>
    obtain ⟨hh, mm⟩ := p
    rw [dtKey_addDepartureDt_of_some now h]
    obtain ⟨h24, m60⟩ := parseDeparture_bounds h
    exact (rolledDt_bounds now h24 m60).1

/-- An annotated record with a parseable time sorts strictly below the
far-future sentinel. -/
theorem dtKey_lt_sentinel_of_some {t : Train} {hh mm : Nat} (now : Nat)
    (h : parseDeparture t.departure_time = some (hh, mm)) :
    dtKey (addDepartureDt now t) < now + 365 * secPerDay := by
  rw [dtKey_addDepartureDt_of_some now h]
  obtain ⟨h24, m60⟩ := parseDeparture_bounds h
  have h2 := (rolledDt_bounds now h24 m60).2
  simp only [secPerDay] at *
  omega

theorem sortByDt_perm (l : List Train) : List.Perm (sortByDt l) l :=
  List.perm_insertionSort leDt l

theorem sortByDt_sorted (l : List Train) : (sortByDt l).Pairwise leDt :=
  List.sorted_insertionSort leDt l

theorem sortByDt_pair_stable {a b : Train} {l : List Train}
    (hab : leDt a b) (h : List.Sublist [a, b] l) : List.Sublist [a, b] (sortByDt l) :=
  List.pair_sublist_insertionSort hab h

theorem mem_sortByDt_map {now : Nat} {ts : List Train} {u : Train}
    (h : u ∈ sortByDt (ts.map (addDepartureDt now))) :
    ∃ t ∈ ts, u = addDepartureDt now t := by
  have hm : u ∈ ts.map (addDepartureDt now) := (sortByDt_perm _).mem_iff.mp h
  obtain ⟨t, ht, rfl⟩ := List.mem_map.mp hm
  exact ⟨t, ht, rfl⟩

theorem nonLocalScan_eq (l : List Train) : ∀ acc : List Train, acc.length < 3 →
    nonLocalScan acc l = acc ++ (l.filter isNonLocalTrain).take (3 - acc.length) := by
  induction l with
  | nil =>
    intro acc h
    simp [nonLocalScan]
  | cons t rest ih =>
    intro acc h
    unfold nonLocalScan
    by_cases hnl : isNonLocalTrain t
    · simp only [hnl, if_true, List.filter_cons_of_pos hnl]
      by_cases h3 : 3 ≤ (acc ++ [t]).length
      · rw [if_pos h3]
        simp only [List.length_append, List.length_singleton] at h3
        have hlen : acc.length = 2 := by omega
        rw [hlen]
        simp
      · rw [if_neg h3]
        simp only [List.length_append, List.length_singleton] at h3
        rw [ih (acc ++ [t]) (by simp; omega)]
        have h32 : 3 - acc.length = (3 - (acc ++ [t]).length) + 1 := by simp; omega
        rw [h32]
        simp [List.take_succ_cons]
    · have hnl2 : isNonLocalTrain t = false := by simpa using hnl
      simp [hnl2, ih acc h]

/-- The globally sorted annotated sequence that `get_trains_by_logic`
builds before branching (analysis shorthand). -/
def sortedOf (now : Nat) (ts : List Train) : List Train :=
  sortByDt (ts.map (addDepartureDt now))

theorem gtbl_mixed {now : Nat} {ts : List Train}
    (hn : has_non_local_trains (sortedOf now ts) = true)
    (hl : has_local_trains (sortedOf now ts) = true) :
    get_trains_by_logic now ts = ((sortedOf now ts).take 3, "mixed") := by
  unfold sortedOf at *
  unfold get_trains_by_logic
  simp [hn, hl]

theorem gtbl_nonlocal {now : Nat} {ts : List Train}
    (hn : has_non_local_trains (sortedOf now ts) = true)
    (hl : has_local_trains (sortedOf now ts) = false) :
    get_trains_by_logic now ts = (nonLocalScan [] (sortedOf now ts), "non_local") := by
  unfold sortedOf at *
  unfold get_trains_by_logic
  simp [hn, hl]

theorem gtbl_local {now : Nat} {ts : List Train}
    (hn : has_non_local_trains (sortedOf now ts) = false)
    (hl : has_local_trains (sortedOf now ts) = true)
    (hne : (sortedOf now ts).filter (fun t => decide (dtKey t ≤ now + secPerHour)) ≠ []) :
    get_trains_by_logic now ts =
      ((sortedOf now ts).filter (fun t => decide (dtKey t ≤ now + secPerHour)), "local") := by
  unfold sortedOf at *
  unfold get_trains_by_logic
  simp only [hn, hl, Bool.false_and, if_false, if_true, Bool.false_eq_true, ite_false, ite_true]
  rw [if_neg]
  simp only [ne_eq, ← List.length_eq_zero] at hne
  exact hne

theorem gtbl_fallback {now : Nat} {ts : List Train}
    (hn : has_non_local_trains (sortedOf now ts) = false)
    (hl : has_local_trains (sortedOf now ts) = true)
    (hemp : (sortedOf now ts).filter (fun t => decide (dtKey t ≤ now + secPerHour)) = []) :
    get_trains_by_logic now ts = ((sortedOf now ts).take 3, "local_fallback") := by
  unfold sortedOf at *
  unfold get_trains_by_logic
  simp only [hn, hl, Bool.false_and, if_false, if_true, Bool.false_eq_true, ite_false, ite_true]
  rw [if_pos]
  rw [hemp]
  rfl

theorem gtbl_other {now : Nat} {ts : List Train}
    (hn : has_non_local_trains (sortedOf now ts) = false)
    (hl : has_local_trains (sortedOf now ts) = false) :
    get_trains_by_logic now ts = ((sortedOf now ts).take 3, "other") := by
  unfold sortedOf at *
  unfold get_trains_by_logic
  simp [hn, hl]

/-- Whatever the branch, the selected records form a sublist of the
globally sorted sequence. -/
theorem gtbl_fst_sublist (now : Nat) (ts : List Train) :
    List.Sublist (get_trains_by_logic now ts).1 (sortedOf now ts) := by
  cases hn : has_non_local_trains (sortedOf now ts) with
  | true =>
    cases hl : has_local_trains (sortedOf now ts) with
    | true =>
      rw [gtbl_mixed hn hl]
      exact List.take_sublist _ _
    | false =>
      rw [gtbl_nonlocal hn hl]
      rw [nonLocalScan_eq _ [] (by simp)]
      simp only [List.nil_append]
      exact (List.take_sublist _ _).trans (List.filter_sublist _)
  | false =>
    cases hl : has_local_trains (sortedOf now ts) with
    | true =>
      by_cases hf : (sortedOf now ts).filter (fun t => decide (dtKey t ≤ now + secPerHour)) = []
      · rw [gtbl_fallback hn hl hf]
        exact List.take_sublist _ _
      · rw [gtbl_local hn hl hf]
        exact List.filter_sublist _
    | false =>
      rw [gtbl_other hn hl]
      exact List.take_sublist _ _

/-! ### Concrete fixtures used by witness theorems -/

/-- A minimal record with the given name, type and departure time; all
other extractor fields empty. -/
def mkTrain (name typ st : String) : Train :=
  { train_number := "", train_name := name, train_type := typ, source := "",
    departure_time := st, destination := "", arrival_time := "", duration := "",
    booking_available := false, advance_reservation_period := "0",
    start_date := "", end_date := "", booking_classes := [], notices := [],
    has_pantry := false, is_limited_run := false }

def wLocalIn : Train := mkTrain "Karjat Local" "" "00:30"

def wLocalLate : Train := mkTrain "Karjat Local" "" "02:00"

def wLocalA : Train := mkTrain "Alpha Local" "" "10:00"

def wLocalB : Train := mkTrain "Beta Local" "" "10:00"

def wExpress : Train := mkTrain "Mumbai Express" "" "00:10"

def wExpress2 : Train := mkTrain "Howrah Mail" "" "01:00"

def wBadTime : Train := mkTrain "Ghost Local" "" "xx:yy"

def wOkRowA : RawRow := { dataTrain := some { name := some "Alpha Local", st := some "10:00" } }

def wOkRowB : RawRow := { dataTrain := some { name := some "Beta Local", st := some "11:00" } }

def wBadRow : RawRow := { dataTrain := none }

/-! ### Claim theorems -/

/-- C1: with at least one local-keyword record and no non-local-keyword
record, the engine keeps exactly the sorted records inside the 1-hour
forward window from "now" (boundary inclusive; every annotated key is
at or after "now", so the upper test is the whole window test), in
sorted order and uncapped, with tag "local"; when the window is empty
it returns the first 3 of the sorted sequence with tag
"local_fallback". -/
theorem local_branch_correct (now : Nat) (ts : List Train)
    (hl : has_local_trains (sortedOf now ts) = true)
    (hn : has_non_local_trains (sortedOf now ts) = false) :
    ((sortedOf now ts).filter (fun t => decide (dtKey t ≤ now + secPerHour))
      = (sortedOf now ts).filter (fun t => decide (now ≤ dtKey t ∧ dtKey t ≤ now + secPerHour))) ∧
    ((sortedOf now ts).filter (fun t => decide (dtKey t ≤ now + secPerHour))).Pairwise leDt ∧
    ((sortedOf now ts).filter (fun t => decide (dtKey t ≤ now + secPerHour)) ≠ [] →
      get_trains_by_logic now ts
        = ((sortedOf now ts).filter (fun t => decide (dtKey t ≤ now + secPerHour)), "local")) ∧
    ((sortedOf now ts).filter (fun t => decide (dtKey t ≤ now + secPerHour)) = [] →
      get_trains_by_logic now ts = ((sortedOf now ts).take 3, "local_fallback")) := by
  refine ⟨?_, ?_, fun hne => gtbl_local hn hl hne, fun hemp => gtbl_fallback hn hl hemp⟩
  · apply List.filter_congr
    intro t ht
    obtain ⟨u, hu, rfl⟩ := mem_sortByDt_map ht
    have hnow := now_le_dtKey_addDepartureDt now u
    simp [hnow]
  · exact (sortByDt_sorted _).sublist (List.filter_sublist _)

theorem local_branch_correct_witness :
    get_trains_by_logic 0 [wLocalIn] = ([addDepartureDt 0 wLocalIn], "local") ∧
    get_trains_by_logic 0 [wLocalLate] = ((sortedOf 0 [wLocalLate]).take 3, "local_fallback") := by
  constructor
  · exact ((local_branch_correct 0 [wLocalIn] (by decide) (by decide)).2.2.1
      (by decide)).trans (by decide)
  · exact (local_branch_correct 0 [wLocalLate] (by decide) (by decide)).2.2.2 (by decide)

/-- C2: with at least one non-local-keyword record and at least one
local-keyword record, the engine returns exactly the first 3 records of
the ascending-sorted sequence (all of them when fewer than 3 exist),
with tag "mixed", regardless of the categories of the returned
records. -/
theorem mixed_branch_correct (now : Nat) (ts : List Train)
    (hn : has_non_local_trains (sortedOf now ts) = true)
    (hl : has_local_trains (sortedOf now ts) = true) :
    get_trains_by_logic now ts = ((sortedOf now ts).take 3, "mixed") ∧
    ((sortedOf now ts).take 3).length = min 3 ts.length ∧
    (sortedOf now ts).Pairwise leDt := by
  refine ⟨gtbl_mixed hn hl, ?_, sortByDt_sorted _⟩
  rw [List.length_take]
  unfold sortedOf sortByDt
  rw [List.length_insertionSort, List.length_map]

theorem mixed_branch_correct_witness :
    get_trains_by_logic 0 [wLocalIn, wExpress] = ((sortedOf 0 [wLocalIn, wExpress]).take 3, "mixed") ∧
    ((sortedOf 0 [wLocalIn, wExpress]).take 3).length = min 3 2 := by
  have h := mixed_branch_correct 0 [wLocalIn, wExpress] (by decide) (by decide)
  exact ⟨h.1, h.2.1⟩

/-- C3: with at least one non-local-keyword record and no local-keyword
record, the engine returns the first min(3, k) sorted records matching
the non-local keyword set, in sorted order, with tag "non_local", where
k is the number of matching records; fewer than 3 matches are returned
as they are, never padded. -/
theorem nonlocal_branch_correct (now : Nat) (ts : List Train)
    (hn : has_non_local_trains (sortedOf now ts) = true)
    (hl : has_local_trains (sortedOf now ts) = false) :
    get_trains_by_logic now ts
      = (((sortedOf now ts).filter isNonLocalTrain).take 3, "non_local") ∧
    (((sortedOf now ts).filter isNonLocalTrain).take 3).length
      = min 3 ((sortedOf now ts).filter isNonLocalTrain).length ∧
    ((sortedOf now ts).filter isNonLocalTrain).Pairwise leDt := by
  refine ⟨?_, List.length_take _ _, (sortByDt_sorted _).sublist (List.filter_sublist _)⟩
  rw [gtbl_nonlocal hn hl]
  rw [nonLocalScan_eq _ [] (by simp)]
  simp

theorem nonlocal_branch_correct_witness :
    get_trains_by_logic 0 [wExpress, wExpress2]
      = ([addDepartureDt 0 wExpress, addDepartureDt 0 wExpress2], "non_local") := by
  exact ((nonlocal_branch_correct 0 [wExpress, wExpress2] (by decide) (by decide)).1).trans
    (by decide)

/-- Annotation leaves the departure-time string untouched. -/
theorem addDepartureDt_departure_time (now : Nat) (t : Train) :
    (addDepartureDt now t).departure_time = t.departure_time := by
  obtain ⟨v, hv⟩ := addDepartureDt_shape now t
  rw [hv]

/-- Keys depend only on the departure-time string and "now". -/
theorem dtKey_congr {a b : Train} (now : Nat) (h : a.departure_time = b.departure_time) :
    dtKey (addDepartureDt now a) = dtKey (addDepartureDt now b) := by
  cases hp : parseDeparture a.departure_time with
  | none =>
    rw [dtKey_addDepartureDt_of_none now hp,
      dtKey_addDepartureDt_of_none now (h ▸ hp)]
  | some p =>
    obtain ⟨hh, mm⟩ := p
    rw [dtKey_addDepartureDt_of_some now hp,
      dtKey_addDepartureDt_of_some now (h ▸ hp)]

/-- C4: every selection branch returns records ascending by their
attached key, the returned records form an order-preserving subsequence
of the globally sorted sequence, and the global sort is stable: two
annotated records with equal keys that appear in a given order in the
annotated input appear in that same order in the sorted sequence (and
equal departure-time strings always yield equal keys). -/
theorem selection_sorted_and_stable (now : Nat) (ts : List Train) :
    (get_trains_by_logic now ts).1.Pairwise leDt ∧
    List.Sublist (get_trains_by_logic now ts).1 (sortedOf now ts) ∧
    (∀ a b : Train, List.Sublist [a, b] (ts.map (addDepartureDt now)) → dtKey a = dtKey b →
      List.Sublist [a, b] (sortedOf now ts)) ∧
    (∀ a b : Train, a.departure_time = b.departure_time →
      dtKey (addDepartureDt now a) = dtKey (addDepartureDt now b)) := by
  refine ⟨?_, gtbl_fst_sublist now ts, ?_, fun a b h => dtKey_congr now h⟩
  · exact (sortByDt_sorted _).sublist (gtbl_fst_sublist now ts)
  · intro a b hab hk
    exact sortByDt_pair_stable (le_of_eq hk) hab

theorem selection_sorted_and_stable_witness :
    List.Sublist [addDepartureDt 7 wLocalA, addDepartureDt 7 wLocalB]
      (sortedOf 7 [wLocalA, wLocalB]) := by
  exact (selection_sorted_and_stable 7 [wLocalA, wLocalB]).2.2.1
    (addDepartureDt 7 wLocalA) (addDepartureDt 7 wLocalB)
    (List.Sublist.refl _) (by decide)

/-- C5: a record whose departure time is empty or unparseable (bad
arity, non-numeric field, out-of-range hour or minute) never fails
annotation: it receives the far-future sentinel key "now + 365 days",
and in the globally sorted sequence no such record ever precedes a
record with a parseable departure time. -/
theorem unparseable_sentinel (now : Nat) (ts : List Train) :
    parseDeparture "" = none ∧
    (∀ t : Train, parseDeparture t.departure_time = none →
      (addDepartureDt now t).departure_datetime = some (now + 365 * secPerDay)) ∧
    (sortedOf now ts).Pairwise (fun a b =>
      parseDeparture a.departure_time = none → parseDeparture b.departure_time = none) := by
  refine ⟨parseDeparture_empty, ?_, ?_⟩
  · intro t h
    rw [addDepartureDt_of_none now h]
  · refine (sortByDt_sorted _).imp_of_mem ?_
    intro a b ha hb hle hpa
    obtain ⟨u, hu, rfl⟩ := mem_sortByDt_map ha
    obtain ⟨v, hv, rfl⟩ := mem_sortByDt_map hb
    rw [addDepartureDt_departure_time] at hpa ⊢
    by_contra hpb
    obtain ⟨p, hp⟩ := Option.ne_none_iff_exists'.mp hpb
    obtain ⟨hh, mm⟩ := p
    have hlt := dtKey_lt_sentinel_of_some now hp
    have hsa := dtKey_addDepartureDt_of_none now hpa
    have : dtKey (addDepartureDt now u) ≤ dtKey (addDepartureDt now v) := hle
    omega

theorem unparseable_sentinel_witness :
    (addDepartureDt 0 wBadTime).departure_datetime = some (0 + 365 * secPerDay) := by
  exact (unparseable_sentinel 0 []).2.1 wBadTime (by decide)

/-- C6: a parseable departure time hh:mm is scheduled at its next
occurrence at or after "now": the clock time is placed on the date of
"now", rolled forward exactly one day if that instant lies in the past;
the result lies in the window [now, now + 1 day), carries clock time
hh:mm, and its date component is the date of "now" plus one exactly in
the rollover case. -/
theorem rollover_correct (now : Nat) (t : Train) (hh mm : Nat)
    (hp : parseDeparture t.departure_time = some (hh, mm)) :
    (addDepartureDt now t).departure_datetime = some (rolledDt now hh mm) ∧
    rolledDt now hh mm =
      (if now / secPerDay * secPerDay + hh * secPerHour + mm * secPerMinute < now
       then now / secPerDay * secPerDay + hh * secPerHour + mm * secPerMinute + secPerDay
       else now / secPerDay * secPerDay + hh * secPerHour + mm * secPerMinute) ∧
    now ≤ rolledDt now hh mm ∧
    rolledDt now hh mm < now + secPerDay ∧
    rolledDt now hh mm % secPerDay = hh * secPerHour + mm * secPerMinute ∧
    (now / secPerDay * secPerDay + hh * secPerHour + mm * secPerMinute < now →
      rolledDt now hh mm / secPerDay = now / secPerDay + 1) ∧
    (now ≤ now / secPerDay * secPerDay + hh * secPerHour + mm * secPerMinute →
      rolledDt now hh mm / secPerDay = now / secPerDay) := by
  obtain ⟨h24, m60⟩ := parseDeparture_bounds hp
  obtain ⟨hlo, hhi⟩ := rolledDt_bounds now h24 m60
  refine ⟨?_, rfl, hlo, hhi, ?_, ?_, ?_⟩
  · rw [addDepartureDt_of_some now hp]
  · unfold rolledDt
    simp only [secPerDay, secPerHour, secPerMinute]
    split <;> omega
  · intro hroll
    unfold rolledDt at *
    simp only [secPerDay, secPerHour, secPerMinute] at *
    split <;> omega
  · intro hsame
    unfold rolledDt at *
    simp only [secPerDay, secPerHour, secPerMinute] at *
    split <;> omega

theorem rollover_correct_witness :
    (addDepartureDt 50000 (mkTrain "Karjat Local" "" "10:30")).departure_datetime
      = some (rolledDt 50000 10 30) ∧
    rolledDt 50000 10 30 % secPerDay = 10 * secPerHour + 30 * secPerMinute := by
  have h := rollover_correct 50000 (mkTrain "Karjat Local" "" "10:30") 10 30 (by decide)
  exact ⟨h.1, h.2.2.2.2.1⟩

/-- C7 counterexample: a fetched document carrying the upstream
error/warning banner (invalid station codes) and a well-formed document
with zero qualifying rows produce identical results from the pipeline
(both `none`), so no distinct "invalid input" condition is surfaced. -/
theorem banner_counterexample :
    scrape_trains_between 0 { trainRows := [], hasErrorBanner := true }
      = scrape_trains_between 0 { trainRows := [], hasErrorBanner := false } ∧
    scrape_trains_between 0 { trainRows := [], hasErrorBanner := true } = none := by
  exact ⟨rfl, rfl⟩

/-- C7 amended: the pipeline never inspects the error banner; a
document with the upstream rejection banner is reported to the caller
exactly like one without it, and in particular an empty row set is
always the undifferentiated "no data" result `none`, so "invalid input"
and "no trains found" are not distinguishable. -/
theorem banner_not_inspected (now : Nat) (rows : List RawRow) (b1 b2 : Bool) :
    scrape_trains_between now { trainRows := rows, hasErrorBanner := b1 }
      = scrape_trains_between now { trainRows := rows, hasErrorBanner := b2 } ∧
    scrape_trains_between now { trainRows := [], hasErrorBanner := b1 } = none := by
  exact ⟨rfl, rfl⟩

theorem get_train_info_none {row : RawRow} (h : row.dataTrain = none) :
    get_train_info row = none := by
  unfold get_train_info
  rw [h]

theorem get_train_info_isSome {row : RawRow} (h : row.dataTrain.isSome = true) :
    (get_train_info row).isSome = true := by
  obtain ⟨blob, hb⟩ := Option.isSome_iff_exists.mp h
  unfold get_train_info
  rw [hb]
  rfl

theorem extractTrains_length_of_ok :
    ∀ rows : List RawRow, (∀ r ∈ rows, r.dataTrain.isSome = true) →
      (extractTrains rows).length = rows.length := by
  intro rows
  induction rows with
  | nil => intro _; rfl
  | cons r rest ih =>
    intro hok
    have hr := hok r (List.mem_cons_self r rest)
    obtain ⟨t, ht⟩ := Option.isSome_iff_exists.mp (get_train_info_isSome hr)
    unfold extractTrains at *
    rw [List.filterMap_cons, ht]
    simp only [List.length_cons]
    rw [ih fun x hx => hok x (List.mem_cons_of_mem r hx)]

/-- C8: a document whose qualifying rows are one row with an
undecodable blob among N well-formed rows extracts exactly the N
records of the well-formed rows, in document order; the failing row is
dropped by the caller and does not abort extraction of the rest. -/
theorem extraction_isolation (pre post : List RawRow) (bad : RawRow)
    (hbad : bad.dataTrain = none)
    (hok : ∀ r ∈ pre ++ post, r.dataTrain.isSome = true) :
    extractTrains (pre ++ bad :: post) = extractTrains pre ++ extractTrains post ∧
    (extractTrains (pre ++ bad :: post)).length = pre.length + post.length := by
  have hsplit : extractTrains (pre ++ bad :: post) = extractTrains pre ++ extractTrains post := by
    unfold extractTrains
    rw [List.filterMap_append, List.filterMap_cons, get_train_info_none hbad]
  refine ⟨hsplit, ?_⟩
  rw [hsplit, List.length_append]
  rw [extractTrains_length_of_ok pre fun r hr => hok r (List.mem_append_left _ hr)]
  rw [extractTrains_length_of_ok post fun r hr => hok r (List.mem_append_right _ hr)]

theorem extraction_isolation_witness :
    extractTrains ([wOkRowA] ++ wBadRow :: [wOkRowB])
      = extractTrains [wOkRowA] ++ extractTrains [wOkRowB] ∧
    (extractTrains ([wOkRowA] ++ wBadRow :: [wOkRowB])).length = 1 + 1 := by
  exact extraction_isolation [wOkRowA] [wOkRowB] wBadRow (by decide) (by decide)

/-- C9: the selection engine leaves every extractor-produced field of
every record unchanged; its only mutation is attaching the derived
departure instant, and every record it returns is the annotated image
of some input record. -/
theorem annotation_frame (now : Nat) (ts : List Train) :
    (∀ t : Train,
      (addDepartureDt now t).train_number = t.train_number ∧
      (addDepartureDt now t).train_name = t.train_name ∧
      (addDepartureDt now t).train_type = t.train_type ∧
      (addDepartureDt now t).source = t.source ∧
      (addDepartureDt now t).departure_time = t.departure_time ∧
      (addDepartureDt now t).destination = t.destination ∧
      (addDepartureDt now t).arrival_time = t.arrival_time ∧
      (addDepartureDt now t).duration = t.duration ∧
      (addDepartureDt now t).booking_available = t.booking_available ∧
      (addDepartureDt now t).advance_reservation_period = t.advance_reservation_period ∧
      (addDepartureDt now t).start_date = t.start_date ∧
      (addDepartureDt now t).end_date = t.end_date ∧
      (addDepartureDt now t).booking_classes = t.booking_classes ∧
      (addDepartureDt now t).notices = t.notices ∧
      (addDepartureDt now t).has_pantry = t.has_pantry ∧
      (addDepartureDt now t).is_limited_run = t.is_limited_run) ∧
    (∀ u ∈ (get_trains_by_logic now ts).1, ∃ t ∈ ts, u = addDepartureDt now t) := by
  constructor
  · intro t
    obtain ⟨v, hv⟩ := addDepartureDt_shape now t
    rw [hv]
    exact ⟨rfl, rfl, rfl, rfl, rfl, rfl, rfl, rfl, rfl, rfl, rfl, rfl, rfl, rfl, rfl, rfl⟩
  · intro u hu
    exact mem_sortByDt_map ((gtbl_fst_sublist now ts).subset hu)

theorem annotation_frame_witness :
    (addDepartureDt 5 wLocalIn).train_name = wLocalIn.train_name ∧
    ∃ t ∈ [wLocalIn], addDepartureDt 5 wLocalIn = addDepartureDt 5 t := by
  constructor
  · exact ((annotation_frame 5 [wLocalIn]).1 wLocalIn).2.1
  · exact (annotation_frame 5 [wLocalIn]).2 (addDepartureDt 5 wLocalIn) (by decide)

/-- C10: the older `get_next_3_trains` of `tempCodeRunnerFile.py`
computes exactly the first 3 records of the same annotated,
stable-sorted sequence (identical key: same rollover rule and the same
365-day sentinel), so whenever `get_trains_by_logic` answers through
its mixed, local-fallback or other branch, both programs select the
same records in the same order. -/
theorem temp_refinement (now : Nat) (ts : List Train) :
    TempFile.get_next_3_trains now ts = (sortedOf now ts).take 3 ∧
    (((get_trains_by_logic now ts).2 = "mixed" ∨
      (get_trains_by_logic now ts).2 = "local_fallback" ∨
      (get_trains_by_logic now ts).2 = "other") →
      (get_trains_by_logic now ts).1 = TempFile.get_next_3_trains now ts) := by
  have heq : TempFile.get_next_3_trains now ts = (sortedOf now ts).take 3 := rfl
  refine ⟨heq, ?_⟩
  intro htag
  rw [heq]
  cases hn : has_non_local_trains (sortedOf now ts) with
  | true =>
    cases hl : has_local_trains (sortedOf now ts) with
    | true =>
      rw [gtbl_mixed hn hl]
    | false =>
      rw [gtbl_nonlocal hn hl] at htag
      simp at htag
  | false =>
    cases hl : has_local_trains (sortedOf now ts) with
    | true =>
      by_cases hf : (sortedOf now ts).filter (fun t => decide (dtKey t ≤ now + secPerHour)) = []
      · rw [gtbl_fallback hn hl hf]
      · rw [gtbl_local hn hl hf] at htag
        simp at htag
    | false =>
      rw [gtbl_other hn hl]

theorem temp_refinement_witness :
    (get_trains_by_logic 0 [wLocalIn, wExpress]).1
      = TempFile.get_next_3_trains 0 [wLocalIn, wExpress] := by
  exact (temp_refinement 0 [wLocalIn, wExpress]).2 (Or.inl (by decide))
